import Mathlib

/-!
# Verification of the Biennale page-watcher (`run.py`)

This file gives a shallow embedding of the change-detection pipeline of
`run.py`: the keyword classifier `contains_keywords`, the diff summarizer
`generate_diff` (including a faithful model of CPython's `difflib`
`SequenceMatcher` / `unified_diff` as instantiated by the program:
`isjunk=None`, `autojunk=True`, `n=2`, `lineterm=''`), and the per-target
orchestration loop of `main`.

Python strings are modelled as Lean `String`s; the handful of Python string
operations the program uses (`split('\n')`, `'\n'.join`, `lower()`,
`strip()`, `startswith`, slicing `[1:]`, the `in` operator) are modelled
explicitly at the `List Char` level so that their behaviour is fully
transparent.  The SHA-256 digest is modelled as an arbitrary function
parameter: the orchestrator only ever uses it through equality tests.
External collaborators (HTTP fetch + HTML text extraction, the Telegram
notifier, the snapshot file store) are supplied as inputs to the
orchestrator model, exactly along the component boundary described in the
program: a per-target fetch outcome is either the extracted page text or a
fetch error, the snapshot store is a map from filenames to optional cached
text, and the notifier is a function from messages to a success flag.
-/

/-! ## Character-level models of the Python string primitives -/

/-- Model of Python `s.split('\n')` at the character level: split a character
list at every newline.  Like Python, the empty input yields one empty piece. -/
def splitNl : List Char → List (List Char)
  | [] => [[]]
  | c :: cs =>
    if c = '\n' then [] :: splitNl cs
    else
      match splitNl cs with
      | [] => [[c]]
      | l :: ls => (c :: l) :: ls

/-- Model of Python `'\n'.join(pieces)` at the character level. -/
def joinNl : List (List Char) → List Char
  | [] => []
  | [l] => l
  | l :: l' :: ls => l ++ '\n' :: joinNl (l' :: ls)

/-- Boolean test that `w` is a leading segment of `l`. -/
def isPre (w : List Char) : List Char → Bool
  | [] => w.isEmpty
  | b :: l' =>
    match w with
    | [] => true
    | a :: w' => a = b && isPre w' l'

/-- Boolean test that `w` occurs contiguously inside `l`; this models the
Python `in` operator on strings. -/
def isSubstr (w : List Char) : List Char → Bool
  | [] => w.isEmpty
  | c :: t => isPre w (c :: t) || isSubstr w t

/-- Python `s.split('\n')`. -/
def pySplit (s : String) : List String := (splitNl s.data).map String.mk

/-- Python `'\n'.join(l)`. -/
def pyJoin (l : List String) : String := String.mk (joinNl (l.map String.data))

/-- Python `s.lower()` (ASCII case folding, which covers every character the
program compares). -/
def pyLower (s : String) : String := String.mk (s.data.map Char.toLower)

/-- Python `needle in hay` on strings. -/
def pyIn (needle hay : String) : Bool := isSubstr needle.data hay.data

/-- Python `s.startswith(c)` for a one-character prefix `c`. -/
def startsWithChar (s : String) (c : Char) : Bool :=
  match s.data with
  | [] => false
  | d :: _ => d = c

/-- Python `s.strip()`. -/
def pyStrip (s : String) : String :=
  String.mk (((s.data.dropWhile Char.isWhitespace).reverse.dropWhile
    Char.isWhitespace).reverse)

/-- Python `s[1:]`. -/
def pyDropOne (s : String) : String := String.mk (s.data.drop 1)

/-! ## The keyword vocabulary and classifier (`run.py` lines 36-97) -/

/-- The fixed ticket vocabulary `TICKET_KEYWORDS` of `run.py`. -/
def TICKET_KEYWORDS : List String :=
  [ "biglietti", "biglietto", "prezzo", "prezzi", "costo", "vendita",
    "acquisto", "prenotazione", "prenotazioni", "disponibili", "disponibile",
    "aperto", "apertura", "chiusura", "orari", "orario", "euro", "€",
    "gratuito", "gratis", "posti", "posto", "sala", "cinema", "film",
    "proiezione", "proiezioni", "festival", "biennale", "venezia" ]

/-- `contains_keywords` of `run.py`: case-insensitive substring test of any
keyword against the text. -/
def contains_keywords (text : String) (keywords : List String) : Bool :=
  let text_lower := pyLower text
  keywords.any (fun keyword => pyIn (pyLower keyword) text_lower)

/-! ## CPython `difflib`, as used by `run.py`

`generate_diff` calls `difflib.unified_diff(old_lines, new_lines,
fromfile='previous', tofile='current', lineterm='', n=2)`, which drives
`SequenceMatcher(None, a, b)` (so `isjunk=None` and `autojunk=True`).
The definitions below transcribe the CPython implementation for exactly
this instantiation.  Since `isjunk=None`, the junk set `bjunk` is empty and
the two junk-extension loops of `find_longest_match` never fire, so they
are omitted; the `autojunk` popularity purge of `b2j` is kept. -/

/-- `SequenceMatcher.__chain_b`: map each line to its (increasing) list of
indices in `b`, with popular entries removed when `autojunk` applies
(`len(b) >= 200` and the line fills more than 1% of `b`). -/
def b2jOf (b : List String) : String → List Nat := fun elt =>
  let idxs := (List.range b.length).filter (fun j => b.getD j "" = elt)
  if b.length ≥ 200 ∧ idxs.length > b.length / 100 + 1 then [] else idxs

/-- The dynamic-programming core of `find_longest_match`: sweep `i` over
`[alo, ahi)` keeping `j2len` (length of the longest chain of matches ending
at each `j` for the previous `i`), tracking the longest chain seen.
Returns `(besti, bestj, bestsize)`. -/
def flmInner (b2j : String → List Nat) (a : List String)
    (alo ahi blo bhi : Nat) : Nat × Nat × Nat :=
  let step := fun (st : (Nat → Nat) × Nat × Nat × Nat) (i : Nat) =>
    let j2len := st.1
    let js := ((b2j (a.getD i "")).filter (fun j => blo ≤ j)).filter
      (fun j => j < bhi)
    let inner := fun (st' : (Nat → Nat) × Nat × Nat × Nat) (j : Nat) =>
      let k := (if j = 0 then 0 else j2len (j - 1)) + 1
      let newj2len := fun x => if x = j then k else st'.1 x
      if k > st'.2.2.2 then (newj2len, i + 1 - k, j + 1 - k, k)
      else (newj2len, st'.2)
    js.foldl inner ((fun _ => 0), st.2)
  let res := (List.range' alo (ahi - alo)).foldl step
    ((fun _ => 0), alo, blo, 0)
  res.2

/-- The first extension loop of `find_longest_match`: grow the match to the
left while the adjacent lines agree.  The loop decrements `besti` while
`alo < besti`, so running it with `fuel = besti` never truncates it; the
fuel argument only makes the recursion structural. -/
def extendLeft (a b : List String) (alo blo : Nat) :
    Nat → Nat → Nat → Nat → Nat × Nat × Nat
  | 0, besti, bestj, bestsize => (besti, bestj, bestsize)
  | fuel + 1, besti, bestj, bestsize =>
    if alo < besti ∧ blo < bestj ∧
        a.getD (besti - 1) "" = b.getD (bestj - 1) "" then
      extendLeft a b alo blo fuel (besti - 1) (bestj - 1) (bestsize + 1)
    else (besti, bestj, bestsize)

/-- The second extension loop of `find_longest_match`: grow the match to the
right while the adjacent lines agree.  The loop increments `bestsize` while
`besti + bestsize < ahi`, so running it with `fuel = ahi` never truncates
it; the fuel argument only makes the recursion structural. -/
def extendRight (a b : List String) (ahi bhi besti bestj : Nat) :
    Nat → Nat → Nat
  | 0, bestsize => bestsize
  | fuel + 1, bestsize =>
    if besti + bestsize < ahi ∧ bestj + bestsize < bhi ∧
        a.getD (besti + bestsize) "" = b.getD (bestj + bestsize) "" then
      extendRight a b ahi bhi besti bestj fuel (bestsize + 1)
    else bestsize

/-- `SequenceMatcher.find_longest_match` on `a[alo:ahi]` and `b[blo:bhi]`
(with the empty junk set of `isjunk=None`). -/
def findLongestMatch (b2j : String → List Nat) (a b : List String)
    (alo ahi blo bhi : Nat) : Nat × Nat × Nat :=
  let r := flmInner b2j a alo ahi blo bhi
  let r := extendLeft a b alo blo r.1 r.1 r.2.1 r.2.2
  (r.1, r.2.1, extendRight a b ahi bhi r.1 r.2.1 ahi r.2.2)

/-- The divide-and-conquer recursion of `get_matching_blocks`.  CPython runs
it with an explicit LIFO queue and sorts the result; because each
subproblem is solved independently of the order of processing, an in-order
recursion produces the same sorted list directly.  `fuel` bounds the
recursion depth; every call strictly shrinks `(ahi - alo) + (bhi - blo)`,
so the initial fuel `a.length + b.length + 1` is never exhausted. -/
def matchingBlocksAux (b2j : String → List Nat) (a b : List String) :
    Nat → Nat → Nat → Nat → Nat → List (Nat × Nat × Nat)
  | 0, _, _, _, _ => []
  | fuel + 1, alo, ahi, blo, bhi =>
    let m := findLongestMatch b2j a b alo ahi blo bhi
    if m.2.2 = 0 then []
    else
      (if alo < m.1 ∧ blo < m.2.1 then
        matchingBlocksAux b2j a b fuel alo m.1 blo m.2.1
      else [])
      ++ [m] ++
      (if m.1 + m.2.2 < ahi ∧ m.2.1 + m.2.2 < bhi then
        matchingBlocksAux b2j a b fuel (m.1 + m.2.2) ahi (m.2.1 + m.2.2) bhi
      else [])

/-- The adjacency-collapsing pass at the end of `get_matching_blocks`. -/
def collapseBlocks (i1 j1 k1 : Nat) :
    List (Nat × Nat × Nat) → List (Nat × Nat × Nat)
  | [] => if k1 ≠ 0 then [(i1, j1, k1)] else []
  | (i2, j2, k2) :: rest =>
    if i1 + k1 = i2 ∧ j1 + k1 = j2 then collapseBlocks i1 j1 (k1 + k2) rest
    else if k1 ≠ 0 then (i1, j1, k1) :: collapseBlocks i2 j2 k2 rest
    else collapseBlocks i2 j2 k2 rest

/-- `SequenceMatcher.get_matching_blocks`, terminated by the sentinel block
`(len(a), len(b), 0)`. -/
def getMatchingBlocks (a b : List String) : List (Nat × Nat × Nat) :=
  let blocks := matchingBlocksAux (b2jOf b) a b (a.length + b.length + 1)
    0 a.length 0 b.length
  collapseBlocks 0 0 0 blocks ++ [(a.length, b.length, 0)]

/-- One entry of `SequenceMatcher.get_opcodes`; the tag is one of
`"replace"`, `"delete"`, `"insert"`, `"equal"`, as in CPython. -/
structure Opcode where
  tag : String
  i1 : Nat
  i2 : Nat
  j1 : Nat
  j2 : Nat
deriving DecidableEq, Repr

/-- The loop body of `get_opcodes`. -/
def opcodesLoop (i j : Nat) : List (Nat × Nat × Nat) → List Opcode
  | [] => []
  | (ai, bj, size) :: rest =>
    let tag : String :=
      if i < ai ∧ j < bj then "replace"
      else if i < ai then "delete"
      else if j < bj then "insert"
      else ""
    (if tag ≠ "" then [⟨tag, i, ai, j, bj⟩] else [])
    ++ (if size ≠ 0 then [⟨"equal", ai, ai + size, bj, bj + size⟩] else [])
    ++ opcodesLoop (ai + size) (bj + size) rest

/-- `SequenceMatcher.get_opcodes`. -/
def getOpcodes (a b : List String) : List Opcode :=
  opcodesLoop 0 0 (getMatchingBlocks a b)

/-- The head fix-up of `get_grouped_opcodes`: an initial `equal` opcode is
trimmed to at most `n` lines of leading context. -/
def fixHead (n : Nat) : List Opcode → List Opcode
  | [] => []
  | c :: rest =>
    (if c.tag = "equal" then
      ⟨c.tag, max c.i1 (c.i2 - n), c.i2, max c.j1 (c.j2 - n), c.j2⟩
    else c) :: rest

/-- The tail fix-up of `get_grouped_opcodes`: a final `equal` opcode is
trimmed to at most `n` lines of trailing context. -/
def fixLast (n : Nat) : List Opcode → List Opcode
  | [] => []
  | [c] =>
    [if c.tag = "equal" then
      ⟨c.tag, c.i1, min c.i2 (c.i1 + n), c.j1, min c.j2 (c.j1 + n)⟩
    else c]
  | c :: c' :: rest => c :: fixLast n (c' :: rest)

/-- The grouping loop of `get_grouped_opcodes`: a group is closed whenever
an `equal` opcode spans more than `2 n` lines; a trailing group is emitted
unless it is a single `equal` opcode. -/
def groupLoop (n : Nat) (group : List Opcode) :
    List Opcode → List (List Opcode)
  | [] =>
    if group ≠ [] ∧ ¬(group.length = 1 ∧
        ((group.headD ⟨"", 0, 0, 0, 0⟩).tag = "equal")) then
      [group]
    else []
  | c :: rest =>
    if c.tag = "equal" ∧ c.i2 - c.i1 > n + n then
      (group ++ [⟨c.tag, c.i1, min c.i2 (c.i1 + n), c.j1,
        min c.j2 (c.j1 + n)⟩]) ::
      groupLoop n [⟨c.tag, max c.i1 (c.i2 - n), c.i2,
        max c.j1 (c.j2 - n), c.j2⟩] rest
    else groupLoop n (group ++ [c]) rest

/-- `SequenceMatcher.get_grouped_opcodes`. -/
def getGroupedOpcodes (a b : List String) (n : Nat) : List (List Opcode) :=
  let codes := getOpcodes a b
  let codes := if codes = [] then [⟨"equal", 0, 1, 0, 1⟩] else codes
  let codes := fixLast n (fixHead n codes)
  groupLoop n [] codes

/-- `difflib._format_range_unified`. -/
def formatRangeUnified (start stop : Nat) : String :=
  let beginning := start + 1
  let length := stop - start
  if length = 1 then Nat.repr beginning
  else Nat.repr (if length = 0 then beginning - 1 else beginning) ++ "," ++
    Nat.repr length

/-- Python `a[i:j]` on lists. -/
def pySlice (a : List String) (i j : Nat) : List String :=
  (a.drop i).take (j - i)

/-- The per-group output of `unified_diff`: the `@@` hunk header followed by
the context/removal/addition lines of each opcode. -/
def unifiedGroupLines (a b : List String) (group : List Opcode) :
    List String :=
  let first := group.headD ⟨"", 0, 0, 0, 0⟩
  let last := group.getLastD ⟨"", 0, 0, 0, 0⟩
  ("@@ -" ++ formatRangeUnified first.i1 last.i2 ++ " +" ++
    formatRangeUnified first.j1 last.j2 ++ " @@")
  :: (group.map (fun c =>
      if c.tag = "equal" then (pySlice a c.i1 c.i2).map (" " ++ ·)
      else
        (if c.tag = "replace" ∨ c.tag = "delete" then
          (pySlice a c.i1 c.i2).map ("-" ++ ·)
        else [])
        ++ (if c.tag = "replace" ∨ c.tag = "insert" then
          (pySlice b c.j1 c.j2).map ("+" ++ ·)
        else []))).flatten

/-- `difflib.unified_diff(a, b, fromfile='previous', tofile='current',
lineterm='', n=n)`, collected into a list of lines.  The two `---`/`+++`
header lines are emitted once, before the first group. -/
def pyUnifiedDiff (a b : List String) (n : Nat) : List String :=
  match getGroupedOpcodes a b n with
  | [] => []
  | groups =>
    "--- previous" :: "+++ current" ::
      (groups.map (unifiedGroupLines a b)).flatten

/-! ## The diff summarizer (`run.py` lines 99-148) -/

/-- The filtering loop of `generate_diff` over `diff[3:]`: collect addition
lines, collect context lines only once some addition has been collected,
and separately collect the addition lines whose content (marker stripped)
contains a ticket keyword.  The accumulator is
`(additions_only, keyword_additions)`. -/
def diffLoop (acc : List String × List String) :
    List String → List String × List String
  | [] => acc
  | line :: rest =>
    if startsWithChar line '+' then
      let line_content := pyStrip (pyDropOne line)
      diffLoop (acc.1 ++ [line],
        if contains_keywords line_content TICKET_KEYWORDS then
          acc.2 ++ [line]
        else acc.2) rest
    else if startsWithChar line ' ' && !acc.1.isEmpty then
      diffLoop (acc.1 ++ [line], acc.2) rest
    else diffLoop acc rest

/-- `generate_diff` of `run.py`.  Returns `(diff_text, has_keywords)`. -/
def generate_diff (old_text new_text : String) (max_lines : Nat := 10) :
    String × Bool :=
  if old_text = "" then
    let new_lines := (pySplit new_text).take max_lines
    let diff_text := "📝 New content (first " ++ Nat.repr new_lines.length ++
      " lines):\n" ++ pyJoin (new_lines.map (fun line => "+ " ++ line))
    let has_keywords := contains_keywords (pyJoin new_lines) TICKET_KEYWORDS
    (diff_text, has_keywords)
  else
    let old_lines := pySplit old_text
    let new_lines := pySplit new_text
    let diff := pyUnifiedDiff old_lines new_lines 2
    if diff = [] then ("📝 Content changed but no clear diff available", false)
    else
      let pr := diffLoop ([], []) (diff.drop 3)
      let additions_only := pr.1.take max_lines
      if additions_only = [] then
        ("📝 Content changed (no new information detected)", false)
      else
        ("📝 New information:\n<code>" ++ pyJoin additions_only ++ "</code>",
          !pr.2.isEmpty)

/-- The body of the unified diff inspected by the filtering loop:
everything after the three header lines `--- previous`, `+++ current` and
the first `@@` hunk header. -/
def diffBody (old_text new_text : String) : List String :=
  (pyUnifiedDiff (pySplit old_text) (pySplit new_text) 2).drop 3

/-- The addition/context lines that survive both the filtering loop and the
`max_lines` truncation — exactly the content lines of the summary that
`generate_diff` formats in its final branch. -/
def additionsRetained (old_text new_text : String) (max_lines : Nat) :
    List String :=
  (diffLoop ([], []) (diffBody old_text new_text)).1.take max_lines

/-! ## The orchestrator (`run.py` lines 180-258)

The fetch-and-extract step for one target is modelled as an
`Except String String`: `.ok t` is the extracted page text, `.error e` a
fetch failure (`requests.exceptions.RequestException`).  The snapshot store
(`cache/` directory) is a map from filenames to optional cached text. -/

/-- One entry of the `PAGES` configuration list. -/
structure Page where
  page_name : String
  url : String
  filename : String
deriving DecidableEq, Repr

/-- The `PAGES` list of `run.py`. -/
def PAGES : List Page :=
  [ ⟨"Informazioni", "https://www.labiennale.org/it/cinema/2025/informazioni",
      "informazioni.txt"⟩,
    ⟨"labiennale.org/it", "https://www.labiennale.org/it",
      "labienalle_it.txt"⟩,
    ⟨"labiennale.org/it/cinema/2025",
      "https://www.labiennale.org/it/cinema/2025", "labienalle_cinema.txt"⟩ ]

/-- A recorded change (an entry of `changes_detected`). -/
structure ChangeRec where
  page_name : String
  url : String
  hash : String
  diff : String
deriving DecidableEq, Repr

/-- A recorded fetch error (an entry of `errors_encountered`). -/
structure ErrRec where
  page_name : String
  url : String
  error : String
deriving DecidableEq, Repr

/-- Outcome of processing a single target in the loop of `main`.
`diffComputed` records whether the branch that calls `generate_diff` ran —
i.e. whether a diff summary was computed for the target. -/
structure StepResult where
  cache : String → Option String
  event : Option ChangeRec
  error : Option ErrRec
  diffComputed : Bool

/-- One iteration of the per-page loop of `main`, for the page `p`, given
the current snapshot store and the fetch-and-extract outcome.  `sha` is the
fingerprint function. -/
def runStep (sha : String → String) (cache : String → Option String)
    (p : Page) (fetched : Except String String) : StepResult :=
  match fetched with
  | .error e =>
    { cache := cache, event := none,
      error := some ⟨p.page_name, p.url, e⟩, diffComputed := false }
  | .ok new_text =>
    let new_hash := sha new_text
    let old_text := (cache p.filename).getD ""
    let old_hash : Option String :=
      if old_text ≠ "" then some (sha old_text) else none
    if old_hash ≠ some new_hash then
      let res := generate_diff old_text new_text
      { cache := fun f => if f = p.filename then some new_text else cache f,
        event :=
          if res.2 then some ⟨p.page_name, p.url, new_hash, res.1⟩ else none,
        error := none, diffComputed := true }
    else
      { cache := fun f => if f = p.filename then some new_text else cache f,
        event := none, error := none, diffComputed := false }

/-- The whole per-page loop of `main`: thread the snapshot store through the
targets, collecting changes and errors in encounter order. -/
def processTargets (sha : String → String) (cache : String → Option String) :
    List (Page × Except String String) →
      (String → Option String) × List ChangeRec × List ErrRec
  | [] => (cache, [], [])
  | (p, fetched) :: rest =>
    let r := runStep sha cache p fetched
    let rec' := processTargets sha r.cache rest
    (rec'.1, r.event.toList ++ rec'.2.1, r.error.toList ++ rec'.2.2)

/-- The Telegram message built for one recorded change. -/
def changeMessage (c : ChangeRec) : String :=
  "🎫 <b>" ++ c.page_name ++ " Update!</b>\n\n" ++
  "A change has been detected on the " ++ c.page_name ++ " page.\n\n" ++
  c.diff ++ "\n\n" ++
  "🔗 <a href='" ++ c.url ++ "'>Check the page now</a>\n\n"

/-- The Telegram message built for one recorded fetch error. -/
def errorMessage (e : ErrRec) : String :=
  "⚠️ <b>" ++ e.page_name ++ " Watcher Error</b>\n\n" ++
  "Failed to fetch the " ++ e.page_name ++ " page:\n<code>" ++ e.error ++
  "</code>\n\n" ++
  "🔗 <a href='" ++ e.url ++ "'>Target URL</a>"

/-- Result of a whole run of `main`. -/
structure RunResult where
  finalCache : String → Option String
  changes : List ChangeRec
  errors : List ErrRec
  notifications : List String
  sendResults : List Bool
  exitCode : Nat

/-- `main` of `run.py`: process every target, then send one notification per
recorded change followed by one per recorded fetch error, and exit with
code 1 exactly when a fetch error occurred.  The notifier models
`send_telegram_message`; its success flags are collected but never
consulted. -/
def runMain (sha : String → String) (cache : String → Option String)
    (inputs : List (Page × Except String String))
    (notifier : String → Bool) : RunResult :=
  let res := processTargets sha cache inputs
  let notifications :=
    res.2.1.map changeMessage ++ res.2.2.map errorMessage
  { finalCache := res.1, changes := res.2.1, errors := res.2.2,
    notifications := notifications,
    sendResults := notifications.map notifier,
    exitCode := if res.2.2.isEmpty then 0 else 1 }

/-! ## Facts about the split/join models -/

theorem splitNl_ne_nil (cs : List Char) : splitNl cs ≠ [] := by
  induction cs with
  | nil => simp [splitNl]
  | cons c cs ih =>
    simp only [splitNl]
    split
    · simp
    · match h : splitNl cs with
      | [] => simp
      | l :: ls => simp

theorem splitNl_of_noNl {p : List Char} (h : '\n' ∉ p) : splitNl p = [p] := by
  induction p with
  | nil => rfl
  | cons c cs ih =>
    simp only [List.mem_cons, not_or] at h
    have hcn : ¬(c = '\n') := fun hc => h.1 hc.symm
    simp only [splitNl, if_neg hcn, ih h.2]

theorem splitNl_append_newline {xs : List Char} (ys : List Char)
    (h : '\n' ∉ xs) : splitNl (xs ++ '\n' :: ys) = xs :: splitNl ys := by
  induction xs with
  | nil => simp [splitNl]
  | cons c cs ih =>
    simp only [List.mem_cons, not_or] at h
    have hcn : ¬(c = '\n') := fun hc => h.1 hc.symm
    simp only [List.cons_append, splitNl, List.append_eq, if_neg hcn,
      ih h.2]

theorem splitNl_joinNl {P : List (List Char)} (hne : P ≠ [])
    (h : ∀ p ∈ P, '\n' ∉ p) : splitNl (joinNl P) = P := by
  induction P with
  | nil => exact absurd rfl hne
  | cons p rest ih =>
    match rest with
    | [] => exact splitNl_of_noNl (h p (by simp))
    | q :: r =>
      show splitNl (p ++ '\n' :: joinNl (q :: r)) = _
      rw [splitNl_append_newline _ (h p (by simp))]
      rw [ih (by simp) (fun x hx => h x (List.mem_cons_of_mem _ hx))]

theorem mem_splitNl_noNl {cs l : List Char} (hl : l ∈ splitNl cs) :
    '\n' ∉ l := by
  induction cs generalizing l with
  | nil => simp [splitNl] at hl; simp [hl]
  | cons c cs ih =>
    simp only [splitNl] at hl
    by_cases hc : c = '\n'
    · rw [if_pos hc] at hl
      rcases List.mem_cons.mp hl with h | h
      · simp [h]
      · exact ih h
    · rw [if_neg hc] at hl
      match hsp : splitNl cs with
      | [] => exact absurd hsp (splitNl_ne_nil cs)
      | l₀ :: ls =>
        rw [hsp] at hl
        rcases List.mem_cons.mp hl with h | h
        · subst h
          intro hmem
          rcases List.mem_cons.mp hmem with h' | h'
          · exact hc h'.symm
          · exact ih (hsp ▸ List.mem_cons_self l₀ ls) h'
        · exact ih (hsp ▸ List.mem_cons_of_mem _ h)

theorem splitNl_length_append_left {xs : List Char} (ys : List Char)
    (h : '\n' ∉ xs) :
    (splitNl (xs ++ ys)).length = (splitNl ys).length := by
  induction xs with
  | nil => rfl
  | cons c cs ih =>
    simp only [List.mem_cons, not_or] at h
    have hcn : ¬(c = '\n') := fun hc => h.1 hc.symm
    simp only [List.cons_append, splitNl, List.append_eq, if_neg hcn]
    match hsp : splitNl (cs ++ ys) with
    | [] => exact absurd hsp (splitNl_ne_nil _)
    | l₀ :: ls =>
      have := ih h.2
      rw [hsp] at this
      simpa using this

theorem splitNl_length_append_right {zs : List Char} (ys : List Char)
    (h : '\n' ∉ zs) :
    (splitNl (ys ++ zs)).length = (splitNl ys).length := by
  induction ys with
  | nil => simp [splitNl, splitNl_of_noNl h]
  | cons c cs ih =>
    simp only [List.cons_append, splitNl, List.append_eq]
    by_cases hc : c = '\n'
    · simp only [if_pos hc, List.length_cons, ih]
    · simp only [if_neg hc]
      match hsp : splitNl (cs ++ zs), hsp2 : splitNl cs with
      | [], _ => exact absurd hsp (splitNl_ne_nil _)
      | _ :: _, [] => exact absurd hsp2 (splitNl_ne_nil _)
      | l₀ :: ls, m₀ :: ms =>
        have := ih
        rw [hsp, hsp2] at this
        simpa using this

theorem isPre_iff {w l : List Char} : isPre w l = true ↔ w <+: l := by
  induction l generalizing w with
  | nil =>
    simp only [isPre, List.isEmpty_iff]
    constructor
    · intro h; simp [h]
    · intro h; simpa using List.prefix_nil.mp h
  | cons b l' ih =>
    match w with
    | [] => simp [isPre]
    | a :: w' =>
      simp only [isPre, Bool.and_eq_true, decide_eq_true_eq, ih,
        List.cons_prefix_cons]

theorem isSubstr_iff {w l : List Char} : isSubstr w l = true ↔ w <:+: l := by
  induction l with
  | nil =>
    simp only [isSubstr, List.isEmpty_iff, List.infix_nil]
  | cons c t ih =>
    simp only [isSubstr, Bool.or_eq_true, isPre_iff, ih,
      List.infix_cons_iff]

theorem prefix_of_noSep {w xs ys : List Char}
    (hw : '\n' ∉ w) (h : w <+: xs ++ '\n' :: ys) : w <+: xs := by
  rcases le_or_lt w.length xs.length with hle | hlt
  · exact List.prefix_of_prefix_length_le h (List.prefix_append xs _) hle
  · exfalso
    have hxw : xs <+: w :=
      List.prefix_of_prefix_length_le (List.prefix_append xs _) h
        (Nat.le_of_lt hlt)
    rcases hxw with ⟨r, hr⟩
    rcases h with ⟨t, ht⟩
    rw [← hr, List.append_assoc] at ht
    have := List.append_cancel_left ht
    match r, this with
    | [], h' => rw [← hr] at hlt; simp at hlt
    | c :: r', h' =>
      have hc : c = '\n' := by
        simp only [List.cons_append, List.cons.injEq] at h'
        exact h'.1
      subst hc
      exact hw (by rw [← hr]; exact List.mem_append_right _ (by simp))

theorem infix_append_sep_iff {w xs ys : List Char} (hw : '\n' ∉ w) :
    w <:+: xs ++ '\n' :: ys ↔ w <:+: xs ∨ w <:+: ys := by
  constructor
  · intro h
    induction xs with
    | nil =>
      rcases List.infix_cons_iff.mp h with hp | hi
      · match w, hp with
        | [], _ => exact Or.inl List.nil_infix
        | a :: w', hp =>
          have ha : a = '\n' := (List.cons_prefix_cons.mp hp).1
          exact absurd (ha ▸ List.mem_cons_self a w') hw
      · exact Or.inr hi
    | cons x xs' ih =>
      rcases List.infix_cons_iff.mp h with hp | hi
      · exact Or.inl ((prefix_of_noSep hw hp).isInfix)
      · rcases ih hi with h' | h'
        · exact Or.inl (h'.trans (List.suffix_cons x xs').isInfix)
        · exact Or.inr h'
  · intro h
    rcases h with h | h
    · exact h.trans ⟨[], '\n' :: ys, by simp⟩
    · exact h.trans ⟨xs ++ ['\n'], [], by simp⟩

theorem isSubstr_joinNl {w : List Char} {P : List (List Char)}
    (hne : w ≠ []) (hw : '\n' ∉ w) :
    isSubstr w (joinNl P) = true ↔ ∃ p ∈ P, isSubstr w p = true := by
  induction P with
  | nil =>
    simp only [joinNl, isSubstr, List.isEmpty_iff]
    simp [hne]
  | cons p rest ih =>
    match rest with
    | [] => simp [joinNl]
    | q :: r =>
      show isSubstr w (p ++ '\n' :: joinNl (q :: r)) = true ↔ _
      rw [isSubstr_iff, infix_append_sep_iff hw, ← isSubstr_iff,
        ← isSubstr_iff, ih]
      simp only [List.mem_cons, exists_eq_or_imp]

theorem map_toLower_joinNl (P : List (List Char)) :
    (joinNl P).map Char.toLower = joinNl (P.map (List.map Char.toLower)) := by
  induction P with
  | nil => rfl
  | cons p rest ih =>
    match rest with
    | [] => rfl
    | q :: r =>
      show (p ++ '\n' :: joinNl (q :: r)).map Char.toLower = _
      have hnl : Char.toLower '\n' = '\n' := by decide
      simp only [List.map_append, List.map_cons, hnl, ih]
      rfl

theorem ticket_keywords_ok :
    ∀ k ∈ TICKET_KEYWORDS,
      (pyLower k).data ≠ [] ∧ '\n' ∉ (pyLower k).data := by
  decide

theorem contains_keywords_pyJoin (L : List String) :
    contains_keywords (pyJoin L) TICKET_KEYWORDS = true ↔
      ∃ l ∈ L, contains_keywords l TICKET_KEYWORDS = true := by
  simp only [contains_keywords, List.any_eq_true]
  constructor
  · rintro ⟨k, hk, hin⟩
    have hdata : (pyLower (pyJoin L)).data =
        joinNl ((L.map pyLower).map String.data) := by
      simp only [pyLower, pyJoin, map_toLower_joinNl, List.map_map]
      rfl
    have := (ticket_keywords_ok k hk)
    rw [pyIn, hdata] at hin
    rcases (isSubstr_joinNl this.1 this.2).mp hin with ⟨pd, hpd, hsub⟩
    rcases List.mem_map.mp hpd with ⟨p, hp, rfl⟩
    rcases List.mem_map.mp hp with ⟨l, hl, rfl⟩
    refine ⟨l, hl, ⟨k, hk, ?_⟩⟩
    exact hsub
  · rintro ⟨l, hl, k, hk, hin⟩
    refine ⟨k, hk, ?_⟩
    have hdata : (pyLower (pyJoin L)).data =
        joinNl ((L.map pyLower).map String.data) := by
      simp only [pyLower, pyJoin, map_toLower_joinNl, List.map_map]
      rfl
    have hkok := ticket_keywords_ok k hk
    rw [pyIn, hdata]
    exact (isSubstr_joinNl hkok.1 hkok.2).mpr
      ⟨(pyLower l).data, by
        exact List.mem_map.mpr ⟨pyLower l, List.mem_map.mpr ⟨l, hl, rfl⟩, rfl⟩,
        hin⟩

theorem digitChar_ne_newline (m : Nat) : Nat.digitChar m ≠ '\n' := by
  rcases Nat.lt_or_ge m 16 with h | h
  · interval_cases m <;> decide
  · have hstar : Nat.digitChar m = '*' := by
      rw [Nat.digitChar]
      repeat rw [if_neg (by omega)]
    rw [hstar]
    decide

theorem toDigitsCore_no_newline (b fuel n : Nat) (ds : List Char)
    (h : '\n' ∉ ds) : '\n' ∉ Nat.toDigitsCore b fuel n ds := by
  induction fuel generalizing n ds with
  | zero => simpa [Nat.toDigitsCore] using h
  | succ fuel ih =>
    simp only [Nat.toDigitsCore]
    split
    · intro hmem
      rcases List.mem_cons.mp hmem with h' | h'
      · exact digitChar_ne_newline _ h'.symm
      · exact h h'
    · refine ih _ _ ?_
      intro hmem
      rcases List.mem_cons.mp hmem with h' | h'
      · exact digitChar_ne_newline _ h'.symm
      · exact h h'

theorem repr_no_newline (n : Nat) : '\n' ∉ (Nat.repr n).data := by
  show '\n' ∉ ((Nat.toDigits 10 n).asString).data
  have : ((Nat.toDigits 10 n).asString).data = Nat.toDigits 10 n := rfl
  rw [this]
  exact toDigitsCore_no_newline 10 (n + 1) n [] (by simp)

/-! ## Facts about the filtering loop of `generate_diff` -/

theorem diffLoop_snd (body : List String) :
    ∀ acc : List String × List String,
      (diffLoop acc body).2 = acc.2 ++ body.filter
        (fun line => startsWithChar line '+' &&
          contains_keywords (pyStrip (pyDropOne line)) TICKET_KEYWORDS) := by
  induction body with
  | nil => intro acc; simp [diffLoop]
  | cons line rest ih =>
    intro acc
    simp only [diffLoop]
    by_cases hplus : startsWithChar line '+'
    · rw [if_pos hplus]
      by_cases hkw : contains_keywords (pyStrip (pyDropOne line))
          TICKET_KEYWORDS
      · rw [if_pos hkw, ih]
        simp [List.filter_cons, hplus, hkw]
      · rw [if_neg hkw, ih]
        simp [List.filter_cons, hplus, hkw]
    · have hplusf : startsWithChar line '+' = false := by
        simpa using hplus
      rw [if_neg hplus]
      split
      · rw [ih]
        simp [List.filter_cons, hplusf]
      · rw [ih]
        simp [List.filter_cons, hplusf]

theorem diffLoop_fst_nil (body : List String)
    (h : ∀ l ∈ body, startsWithChar l '+' = false) :
    ∀ ks, (diffLoop ([], ks) body).1 = [] := by
  induction body with
  | nil => intro ks; rfl
  | cons line rest ih =>
    intro ks
    have hline : startsWithChar line '+' = false := h line (by simp)
    simp only [diffLoop, hline, Bool.false_eq_true, if_false,
      List.isEmpty_nil, Bool.not_true, Bool.and_false]
    exact ih (fun l hl => h l (List.mem_cons_of_mem _ hl)) ks

theorem diffLoop_fst_mem (body : List String) :
    ∀ (acc : List String × List String) (l : String),
      l ∈ (diffLoop acc body).1 → l ∈ acc.1 ∨ l ∈ body := by
  induction body with
  | nil => intro acc l hl; exact Or.inl hl
  | cons line rest ih =>
    intro acc l hl
    simp only [diffLoop] at hl
    by_cases hplus : startsWithChar line '+'
    · rw [if_pos hplus] at hl
      rcases ih _ l hl with h | h
      · rcases List.mem_append.mp h with h' | h'
        · exact Or.inl h'
        · exact Or.inr (List.mem_cons.mpr (Or.inl (by simpa using h')))
      · exact Or.inr (List.mem_cons_of_mem _ h)
    · rw [if_neg hplus] at hl
      by_cases hsp : (startsWithChar line ' ' && !acc.1.isEmpty) = true
      · rw [if_pos hsp] at hl
        rcases ih _ l hl with h | h
        · rcases List.mem_append.mp h with h' | h'
          · exact Or.inl h'
          · exact Or.inr (List.mem_cons.mpr (Or.inl (by simpa using h')))
        · exact Or.inr (List.mem_cons_of_mem _ h)
      · rw [if_neg hsp] at hl
        rcases ih _ l hl with h | h
        · exact Or.inl h
        · exact Or.inr (List.mem_cons_of_mem _ h)

/-! ## Well-formedness of the unified-diff lines -/

theorem strData_append (s t : String) : (s ++ t).data = s.data ++ t.data :=
  rfl

theorem formatRangeUnified_noNl (i j : Nat) :
    '\n' ∉ (formatRangeUnified i j).data := by
  have hfr : formatRangeUnified i j =
      if j - i = 1 then Nat.repr (i + 1)
      else Nat.repr (if j - i = 0 then i + 1 - 1 else i + 1) ++ "," ++
        Nat.repr (j - i) := rfl
  rw [hfr]
  split
  · exact repr_no_newline _
  · intro h
    rw [strData_append, strData_append] at h
    rcases List.mem_append.mp h with h' | h'
    · rcases List.mem_append.mp h' with h'' | h''
      · exact repr_no_newline _ h''
      · exact absurd h'' (by decide)
    · exact repr_no_newline _ h'

theorem pySlice_mem {a : List String} {x : String} {i j : Nat}
    (h : x ∈ pySlice a i j) : x ∈ a :=
  List.mem_of_mem_drop (List.mem_of_mem_take h)

theorem unifiedGroupLines_noNl {a b : List String}
    (ha : ∀ x ∈ a, '\n' ∉ x.data) (hb : ∀ x ∈ b, '\n' ∉ x.data)
    (group : List Opcode) :
    ∀ l ∈ unifiedGroupLines a b group, '\n' ∉ l.data := by
  intro l hl
  unfold unifiedGroupLines at hl
  rcases List.mem_cons.mp hl with h | h
  · subst h
    intro hmem
    rw [strData_append, strData_append, strData_append,
      strData_append] at hmem
    rcases List.mem_append.mp hmem with h' | h'
    · rcases List.mem_append.mp h' with h'' | h''
      · rcases List.mem_append.mp h'' with h3 | h3
        · rcases List.mem_append.mp h3 with h4 | h4
          · exact absurd h4 (by decide)
          · exact formatRangeUnified_noNl _ _ h4
        · exact absurd h3 (by decide)
      · exact formatRangeUnified_noNl _ _ h''
    · exact absurd h' (by decide)
  · rcases List.mem_flatten.mp h with ⟨ls, hls, hmem⟩
    rcases List.mem_map.mp hls with ⟨c, _, rfl⟩
    by_cases heq : c.tag = "equal"
    · rw [if_pos heq] at hmem
      rcases List.mem_map.mp hmem with ⟨x, hx, rfl⟩
      intro hc
      rw [strData_append] at hc
      rcases List.mem_append.mp hc with h' | h'
      · exact absurd h' (by decide)
      · exact ha x (pySlice_mem hx) h'
    · rw [if_neg heq] at hmem
      rcases List.mem_append.mp hmem with h' | h'
      · split at h'
        · rcases List.mem_map.mp h' with ⟨x, hx, rfl⟩
          intro hc
          rw [strData_append] at hc
          rcases List.mem_append.mp hc with h'' | h''
          · exact absurd h'' (by decide)
          · exact ha x (pySlice_mem hx) h''
        · simp at h'
      · split at h'
        · rcases List.mem_map.mp h' with ⟨x, hx, rfl⟩
          intro hc
          rw [strData_append] at hc
          rcases List.mem_append.mp hc with h'' | h''
          · exact absurd h'' (by decide)
          · exact hb x (pySlice_mem hx) h''
        · simp at h'

theorem pyUnifiedDiff_noNl {a b : List String}
    (ha : ∀ x ∈ a, '\n' ∉ x.data) (hb : ∀ x ∈ b, '\n' ∉ x.data) (n : Nat) :
    ∀ l ∈ pyUnifiedDiff a b n, '\n' ∉ l.data := by
  intro l hl
  unfold pyUnifiedDiff at hl
  split at hl
  · simp at hl
  · rcases List.mem_cons.mp hl with h | h
    · subst h; decide
    · rcases List.mem_cons.mp h with h' | h'
      · subst h'; decide
      · rcases List.mem_flatten.mp h' with ⟨ls, hls, hmem⟩
        rcases List.mem_map.mp hls with ⟨g, _, rfl⟩
        exact unifiedGroupLines_noNl ha hb g l hmem

theorem pySplit_noNl (s : String) : ∀ x ∈ pySplit s, '\n' ∉ x.data := by
  intro x hx
  rcases List.mem_map.mp hx with ⟨l, hl, rfl⟩
  exact mem_splitNl_noNl hl

/-! ## Helper facts for the claim theorems -/

theorem strData_mk (l : List Char) : (String.mk l).data = l := rfl

theorem startsWithChar_mk_append (s : String) (rest : List Char) (c : Char)
    (hs : s.data ≠ []) :
    startsWithChar (String.mk (s.data ++ rest)) c = startsWithChar s c := by
  rcases hd : s.data with _ | ⟨d, ds⟩
  · exact absurd hd hs
  · simp only [startsWithChar, strData_mk, hd, List.cons_append]

theorem map_mk_map_data (X : List String) :
    (X.map String.data).map String.mk = X := by
  induction X with
  | nil => rfl
  | cons s rest ih => simp [ih]

theorem generate_diff_final (old_text new_text : String) (m : Nat)
    (hold : ¬(old_text = ""))
    (hret : additionsRetained old_text new_text m ≠ []) :
    generate_diff old_text new_text m =
      ("📝 New information:\n<code>" ++
          pyJoin (additionsRetained old_text new_text m) ++ "</code>",
        !(diffLoop ([], []) (diffBody old_text new_text)).2.isEmpty) := by
  have hdiff : ¬(pyUnifiedDiff (pySplit old_text) (pySplit new_text) 2 = []) := by
    intro h
    apply hret
    unfold additionsRetained diffBody
    rw [h]
    simp only [List.drop_nil, List.take_eq_nil_iff]
    exact Or.inr rfl
  have hret' : ¬((diffLoop ([], [])
      ((pyUnifiedDiff (pySplit old_text) (pySplit new_text) 2).drop 3)).1.take
        m = []) := hret
  simp only [generate_diff, if_neg hold, if_neg hdiff, if_neg hret']
  rfl

/-! ## Orchestrator helper lemmas -/

theorem runStep_cache_ok (sha : String → String)
    (cache : String → Option String) (p : Page) (t : String) :
    (runStep sha cache p (Except.ok t)).cache =
      fun f => if f = p.filename then some t else cache f := by
  simp only [runStep]
  split <;> split <;> rfl

theorem runStep_cache_err (sha : String → String)
    (cache : String → Option String) (p : Page) (e : String) :
    (runStep sha cache p (Except.error e)).cache = cache := rfl

theorem processTargets_cache_not_mem (sha : String → String)
    (inputs : List (Page × Except String String)) :
    ∀ (cache : String → Option String) (f : String),
      f ∉ inputs.map (fun pe => pe.1.filename) →
      (processTargets sha cache inputs).1 f = cache f := by
  induction inputs with
  | nil => intro cache f _; rfl
  | cons pe rest ih =>
    intro cache f hf
    simp only [List.map_cons, List.mem_cons, not_or] at hf
    show (processTargets sha (runStep sha cache pe.1 pe.2).cache rest).1 f
      = cache f
    rw [ih _ f hf.2]
    match pe, hfe : pe.2 with
    | (p, _), Except.ok t =>
      rw [runStep_cache_ok]
      simp only [if_neg hf.1]
    | (p, _), Except.error e =>
      rw [runStep_cache_err]

/-- **C9.**  After all targets are processed the run emits one notification
per recorded change followed by one per recorded fetch error (every change
notification preceding every error notification), and the exit code is
nonzero iff at least one fetch error occurred, independently of the
notifier's success flags. -/
theorem c9_notification_order_and_exit (sha : String → String)
    (cache : String → Option String)
    (inputs : List (Page × Except String String)) (notifier : String → Bool) :
    (runMain sha cache inputs notifier).notifications =
      ((processTargets sha cache inputs).2.1).map changeMessage ++
        ((processTargets sha cache inputs).2.2).map errorMessage ∧
    ((runMain sha cache inputs notifier).exitCode ≠ 0 ↔
      (processTargets sha cache inputs).2.2 ≠ []) ∧
    ∀ notifier' : String → Bool,
      (runMain sha cache inputs notifier').exitCode =
          (runMain sha cache inputs notifier).exitCode ∧
        (runMain sha cache inputs notifier').notifications =
          (runMain sha cache inputs notifier).notifications := by
  refine ⟨rfl, ?_, fun notifier' => ⟨rfl, rfl⟩⟩
  show ((if (processTargets sha cache inputs).2.2.isEmpty then 0 else 1) ≠ 0)
    ↔ _
  by_cases h : (processTargets sha cache inputs).2.2 = []
  · simp [h]
  · simp [h, List.isEmpty_iff]

/-- **C8.**  After a run, every target whose fetch succeeded has its
snapshot equal to the newly extracted text — in every terminal state — and
every target whose fetch failed has its snapshot left unchanged.  The
hypothesis mirrors the configuration invariant that cache filenames are
pairwise distinct (as in `PAGES`). -/
theorem c8_snapshot_persistence (sha : String → String)
    (cache₀ : String → Option String)
    (inputs : List (Page × Except String String))
    (hnd : (inputs.map (fun pe => pe.1.filename)).Nodup) :
    ∀ pe ∈ inputs,
      match pe.2 with
      | Except.ok t =>
        (processTargets sha cache₀ inputs).1 pe.1.filename = some t
      | Except.error _ =>
        (processTargets sha cache₀ inputs).1 pe.1.filename =
          cache₀ pe.1.filename := by
  induction inputs generalizing cache₀ with
  | nil => intro pe hpe; simp at hpe
  | cons hd rest ih =>
    intro pe hpe
    have hnd' := hnd
    simp only [List.map_cons, List.nodup_cons] at hnd'
    rcases List.mem_cons.mp hpe with hpe' | hpe'
    · subst hpe'
      have hfinal : (processTargets sha cache₀ (pe :: rest)).1 pe.1.filename
          = (runStep sha cache₀ pe.1 pe.2).cache pe.1.filename :=
        processTargets_cache_not_mem sha rest _ pe.1.filename hnd'.1
      rcases pe with ⟨p, fe⟩
      cases fe with
      | ok t =>
        exact hfinal.trans (by rw [runStep_cache_ok]; simp)
      | error e =>
        exact hfinal.trans (congrFun (runStep_cache_err sha cache₀ p e) _)
    · have hne : pe.1.filename ≠ hd.1.filename := by
        intro h
        exact hnd'.1 (h ▸ List.mem_map.mpr ⟨pe, hpe', rfl⟩)
      have hih := ih ((runStep sha cache₀ hd.1 hd.2).cache) hnd'.2 pe hpe'
      rcases pe with ⟨p, fe⟩
      cases fe with
      | ok t => exact hih
      | error e =>
        refine hih.trans ?_
        rcases hd with ⟨q, fd⟩
        cases fd with
        | ok u =>
          rw [runStep_cache_ok]
          exact if_neg hne
        | error eu => exact congrFun (runStep_cache_err sha cache₀ q eu) _

/-- The snapshot store written by a successful per-target step, at the
target's own filename. -/
theorem runStep_ok_noop (sha : String → String)
    (cache : String → Option String) (p : Page) (t : String)
    (hcache : cache p.filename = some t) :
    (runStep sha cache p (Except.ok t)).event = none ∧
      (runStep sha cache p (Except.ok t)).cache p.filename = some t := by
  refine ⟨?_, by rw [runStep_cache_ok]; simp⟩
  by_cases ht : t = ""
  · subst ht
    simp only [runStep, hcache, Option.getD_some, ne_eq, not_true_eq_false,
      if_false, reduceIte]
    have hkw : (generate_diff "" "").2 = false := by decide
    simp [hkw]
  · simp only [runStep, hcache, Option.getD_some, ne_eq, if_neg ht]
    simp [ht]

/-- **C10.**  If a run stores snapshot text `T` for a target and a second
run fetches the same text `T`, the second run produces no ChangeEvent for
the target and leaves its snapshot equal to `T`. -/
theorem c10_noop_idempotence (sha : String → String)
    (cache : String → Option String) (p : Page) (T : String) :
    (runStep sha (runStep sha cache p (Except.ok T)).cache p
        (Except.ok T)).event = none ∧
    (runStep sha (runStep sha cache p (Except.ok T)).cache p
        (Except.ok T)).cache p.filename = some T := by
  apply runStep_ok_noop
  rw [runStep_cache_ok]
  simp

/-- **C4 (counterexample).**  With no prior snapshot and empty extracted
text, the orchestrator does *not* reach the no-change branch: the
fingerprint comparison `None != sha("")` is true, so a diff summary *is*
computed (though no ChangeEvent results). -/
theorem c4_counterexample :
    ((fun _ => (none : Option String)) "informazioni.txt" = none) ∧
    (runStep (fun s => s) (fun _ => none)
        ⟨"Informazioni",
          "https://www.labiennale.org/it/cinema/2025/informazioni",
          "informazioni.txt"⟩ (Except.ok "")).diffComputed = true ∧
    (runStep (fun s => s) (fun _ => none)
        ⟨"Informazioni",
          "https://www.labiennale.org/it/cinema/2025/informazioni",
          "informazioni.txt"⟩ (Except.ok "")).event = none := by
  refine ⟨rfl, by decide, ?_⟩
  have h : (generate_diff "" "").2 = false := by decide
  simp [runStep, h]

/-- **C4 (amended).**  If the prior snapshot text is non-empty and the new
fingerprint equals the old one, the target ends in the no-change state (no
diff summary, no ChangeEvent, no error).  If instead the prior snapshot is
absent-or-empty and the new text is empty, the summarizer *is* invoked, but
its relevance flag is false, so there is still no ChangeEvent, no error and
no notification; in both cases a single-target run sends nothing. -/
theorem c4_amended (sha : String → String) (cache : String → Option String)
    (p : Page) (t : String) (notifier : String → Bool)
    (hcase : ((cache p.filename).getD "" ≠ "" ∧
        sha ((cache p.filename).getD "") = sha t) ∨
      ((cache p.filename).getD "" = "" ∧ t = "")) :
    (runStep sha cache p (Except.ok t)).event = none ∧
    (runStep sha cache p (Except.ok t)).error = none ∧
    (runStep sha cache p (Except.ok t)).diffComputed =
      decide ((cache p.filename).getD "" = "") ∧
    (runMain sha cache [(p, Except.ok t)] notifier).notifications = [] := by
  have hmain : ∀ (h1 : (runStep sha cache p (Except.ok t)).event = none)
      (h2 : (runStep sha cache p (Except.ok t)).error = none),
      (runMain sha cache [(p, Except.ok t)] notifier).notifications = [] := by
    intro h1 h2
    simp only [runMain, processTargets, h1, h2]
    rfl
  rcases hcase with ⟨hne, heq⟩ | ⟨hempty, ht⟩
  · have hcond : ¬((if (cache p.filename).getD "" ≠ "" then
        some (sha ((cache p.filename).getD "")) else none) ≠
          some (sha t)) := by
      rw [if_pos hne, heq]
      simp
    have h1 : (runStep sha cache p (Except.ok t)).event = none := by
      simp only [runStep, if_neg hcond]
    have h2 : (runStep sha cache p (Except.ok t)).error = none := by
      simp only [runStep, if_neg hcond]
    refine ⟨h1, h2, ?_, hmain h1 h2⟩
    simp only [runStep, if_neg hcond]
    simp [hne]
  · subst ht
    have hcond : ((if (cache p.filename).getD "" ≠ "" then
        some (sha ((cache p.filename).getD "")) else none) ≠
          some (sha "")) := by
      rw [if_neg (by simp [hempty])]
      simp
    have hkw : (generate_diff ((cache p.filename).getD "") "").2 = false := by
      rw [hempty]
      decide
    have h1 : (runStep sha cache p (Except.ok "")).event = none := by
      simp only [runStep, if_pos hcond, hkw]
      simp
    have h2 : (runStep sha cache p (Except.ok "")).error = none := by
      simp only [runStep, if_pos hcond]
    refine ⟨h1, h2, ?_, hmain h1 h2⟩
    simp only [runStep, if_pos hcond]
    simp [hempty]

/-- **C4 (witness).**  The amended statement at a concrete no-change input:
a cached snapshot `"x"` whose fingerprint equals the refetched text's. -/
theorem c4_amended_witness :
    (runStep (fun s => s) (fun _ => some "x")
        ⟨"Informazioni",
          "https://www.labiennale.org/it/cinema/2025/informazioni",
          "informazioni.txt"⟩ (Except.ok "x")).event = none ∧
    (runStep (fun s => s) (fun _ => some "x")
        ⟨"Informazioni",
          "https://www.labiennale.org/it/cinema/2025/informazioni",
          "informazioni.txt"⟩ (Except.ok "x")).error = none ∧
    (runStep (fun s => s) (fun _ => some "x")
        ⟨"Informazioni",
          "https://www.labiennale.org/it/cinema/2025/informazioni",
          "informazioni.txt"⟩ (Except.ok "x")).diffComputed =
      decide ((((fun _ => some "x") : String → Option String)
        "informazioni.txt").getD "" = "") ∧
    (runMain (fun s => s) (fun _ => some "x")
        [(⟨"Informazioni",
          "https://www.labiennale.org/it/cinema/2025/informazioni",
          "informazioni.txt"⟩, Except.ok "x")] (fun _ => true)).notifications
      = [] :=
  c4_amended (fun s => s) (fun _ => some "x") _ "x" (fun _ => true)
    (Or.inl ⟨by decide, rfl⟩)

/-- **C1 (counterexample).**  For old text `"Museo aperto"` and new text
`"Museo aperto. Nuove informazioni generali."` the summarizer does *not*
return relevance = false: the added line contains the vocabulary keyword
`"aperto"`, so the flag is true. -/
theorem c1_counterexample :
    ¬((generate_diff "Museo aperto"
        "Museo aperto. Nuove informazioni generali." 10).2 = false) := by
  decide

/-- **C1 (amended).**  For old text `"Museo aperto"` and new text
`"Museo aperto. Nuove informazioni generali."` the fingerprints differ, the
added line contains the keyword `"aperto"`, the summarizer returns
relevance = true, and the orchestrator *does* produce a ChangeEvent. -/
theorem c1_amended :
    (generate_diff "Museo aperto"
        "Museo aperto. Nuove informazioni generali." 10).2 = true ∧
    contains_keywords "Museo aperto. Nuove informazioni generali."
        TICKET_KEYWORDS = true ∧
    (runStep (fun s => s) (fun _ => some "Museo aperto")
        ⟨"Informazioni",
          "https://www.labiennale.org/it/cinema/2025/informazioni",
          "informazioni.txt"⟩
        (Except.ok "Museo aperto. Nuove informazioni generali.")).event.isSome
      = true := by
  refine ⟨by decide, by decide, by decide⟩

/-- **C3.**  The relevance flag is computed over all addition lines of the
unified diff *before* the `max_lines` truncation: at this concrete input the
eleventh addition line (`"biglietti in vendita"`) is dropped from the
ten-line summary, yet relevance is true while no line of the returned
summary contains any vocabulary keyword. -/
theorem c3_relevance_before_truncation :
    (generate_diff "inizio"
        "inizio\nzzz1\nzzz2\nzzz3\nzzz4\nzzz5\nzzz6\nzzz7\nzzz8\nzzz9\nzzz10\nbiglietti in vendita"
        10).2 = true ∧
    (pySplit (generate_diff "inizio"
        "inizio\nzzz1\nzzz2\nzzz3\nzzz4\nzzz5\nzzz6\nzzz7\nzzz8\nzzz9\nzzz10\nbiglietti in vendita"
        10).1).all (fun l => !contains_keywords l TICKET_KEYWORDS) = true :=
  ⟨by decide, by decide⟩

/-- **C2 (counterexample).**  A prior snapshot exists and ten addition lines
survive filtering and truncation, none of which contains a keyword once the
diff marker is stripped — yet relevance is true, because the keyword test
ran over an addition line (`"vendita aperta"`) that the truncation
discarded. -/
theorem c2_counterexample :
    (additionsRetained "testo"
        "testo\nriga1\nriga2\nriga3\nriga4\nriga5\nriga6\nriga7\nriga8\nriga9\nriga10\nvendita aperta"
        10 ≠ []) ∧
    (generate_diff "testo"
        "testo\nriga1\nriga2\nriga3\nriga4\nriga5\nriga6\nriga7\nriga8\nriga9\nriga10\nvendita aperta"
        10).2 = true ∧
    (additionsRetained "testo"
        "testo\nriga1\nriga2\nriga3\nriga4\nriga5\nriga6\nriga7\nriga8\nriga9\nriga10\nvendita aperta"
        10).all
      (fun l => !contains_keywords (pyStrip (pyDropOne l)) TICKET_KEYWORDS)
      = true :=
  ⟨by decide, by decide, by decide⟩

/-- **C2 (amended).**  When a prior snapshot exists and at least one
addition line survives filtering and truncation, relevance is true iff some
addition line of the *full* unified diff (before truncation), with its diff
marker stripped, contains a vocabulary keyword. -/
theorem c2_amended (old_text new_text : String) (m : Nat)
    (hold : old_text ≠ "")
    (hret : additionsRetained old_text new_text m ≠ []) :
    (generate_diff old_text new_text m).2 = true ↔
      ∃ l ∈ diffBody old_text new_text, startsWithChar l '+' = true ∧
        contains_keywords (pyStrip (pyDropOne l)) TICKET_KEYWORDS = true := by
  rw [generate_diff_final old_text new_text m hold hret]
  rw [diffLoop_snd (diffBody old_text new_text) ([], [])]
  simp only [List.nil_append, Bool.not_eq_true']
  constructor
  · intro h
    have hne : (diffBody old_text new_text).filter
        (fun line => startsWithChar line '+' &&
          contains_keywords (pyStrip (pyDropOne line)) TICKET_KEYWORDS)
        ≠ [] := by
      intro hnil
      rw [hnil] at h
      simp at h
    rcases List.exists_mem_of_ne_nil _ hne with ⟨l, hl⟩
    have hl' := List.mem_filter.mp hl
    obtain ⟨h1, h2⟩ : startsWithChar l '+' = true ∧
        contains_keywords (pyStrip (pyDropOne l)) TICKET_KEYWORDS = true := by
      simpa using hl'.2
    exact ⟨l, hl'.1, h1, h2⟩
  · rintro ⟨l, hl, h1, h2⟩
    have hmem : l ∈ (diffBody old_text new_text).filter
        (fun line => startsWithChar line '+' &&
          contains_keywords (pyStrip (pyDropOne line)) TICKET_KEYWORDS) :=
      List.mem_filter.mpr ⟨hl, by rw [h1, h2]; rfl⟩
    cases hempty : ((diffBody old_text new_text).filter
        (fun line => startsWithChar line '+' &&
          contains_keywords (pyStrip (pyDropOne line))
            TICKET_KEYWORDS)).isEmpty with
    | false => rfl
    | true =>
      rw [List.isEmpty_iff.mp hempty] at hmem
      simp at hmem

/-- **C2 (witness).**  The amended statement at a concrete input where one
keyword-bearing addition line survives. -/
theorem c2_amended_witness :
    (generate_diff "alpha" "alpha\nbiglietti qui" 10).2 = true ↔
      ∃ l ∈ diffBody "alpha" "alpha\nbiglietti qui",
        startsWithChar l '+' = true ∧
        contains_keywords (pyStrip (pyDropOne l)) TICKET_KEYWORDS = true :=
  c2_amended "alpha" "alpha\nbiglietti qui" 10 (by decide) (by decide)

/-- **C7.**  With a non-empty prior snapshot, when the unified diff contains
removed lines but no addition lines (as when the new text is a strict
prefix-truncation of the old), `generate_diff` reports
"no new information detected" with relevance = false. -/
theorem c7_removals_only (old_text new_text : String) (m : Nat)
    (hold : old_text ≠ "")
    (hminus : ∃ l ∈ diffBody old_text new_text, startsWithChar l '-' = true)
    (hplus : ∀ l ∈ diffBody old_text new_text, startsWithChar l '+' = false) :
    generate_diff old_text new_text m =
      ("📝 Content changed (no new information detected)", false) := by
  have hbody_ne : diffBody old_text new_text ≠ [] := by
    rcases hminus with ⟨l, hl, _⟩
    intro h
    rw [h] at hl
    simp at hl
  have hdiff_ne :
      ¬(pyUnifiedDiff (pySplit old_text) (pySplit new_text) 2 = []) := by
    intro h
    apply hbody_ne
    unfold diffBody
    rw [h]
    rfl
  have hrec : (diffLoop ([], []) (diffBody old_text new_text)).1 = [] :=
    diffLoop_fst_nil _ hplus []
  have htake : (diffLoop ([], [])
      ((pyUnifiedDiff (pySplit old_text) (pySplit new_text) 2).drop 3)).1.take
        m = [] := by
    rw [show (pyUnifiedDiff (pySplit old_text) (pySplit new_text) 2).drop 3
      = diffBody old_text new_text from rfl, hrec]
    simp
  simp only [generate_diff, if_neg hold, if_neg hdiff_ne, if_pos htake]

/-- **C7 (witness).**  The statement at the concrete prefix-truncation pair
`"a\nb\nc"` → `"a\nb"`, whose diff is two context lines and one removal. -/
theorem c7_removals_only_witness :
    generate_diff "a\nb\nc" "a\nb" 10 =
      ("📝 Content changed (no new information detected)", false) :=
  c7_removals_only "a\nb\nc" "a\nb" 10 (by decide) (by decide) (by decide)

/-- **C8 (witness).**  The persistence statement at a concrete two-target
run: target `A` fetches `"hello"` successfully, target `B` fails. -/
theorem c8_snapshot_persistence_witness :
    (processTargets (fun _ => "h") (fun _ => none)
      [(⟨"A", "uA", "a.txt"⟩, Except.ok "hello"),
       (⟨"B", "uB", "b.txt"⟩, Except.error "boom")]).1 "a.txt" =
      some "hello" :=
  c8_snapshot_persistence (fun _ => "h") (fun _ => none)
    [(⟨"A", "uA", "a.txt"⟩, Except.ok "hello"),
     (⟨"B", "uB", "b.txt"⟩, Except.error "boom")] (by decide)
    (⟨"A", "uA", "a.txt"⟩, Except.ok "hello") (by simp)

theorem header_noNl (k : Nat) :
    '\n' ∉ "📝 New content (first ".data ++
      ((Nat.repr k).data ++ " lines):".data) := by
  intro h
  rcases List.mem_append.mp h with h' | h'
  · exact absurd h' (by decide)
  · rcases List.mem_append.mp h' with h'' | h''
    · exact repr_no_newline k h''
    · exact absurd h'' (by decide)

theorem pySplit_header_join (k : Nat) (L : List String) :
    pySplit ("📝 New content (first " ++ Nat.repr k ++ " lines):\n" ++
        pyJoin L) =
      String.mk ("📝 New content (first ".data ++
          ((Nat.repr k).data ++ " lines):".data)) ::
        (splitNl (joinNl (L.map String.data))).map String.mk := by
  unfold pySplit pyJoin
  have hd : ("📝 New content (first " ++ Nat.repr k ++ " lines):\n" ++
        String.mk (joinNl (L.map String.data))).data =
      ("📝 New content (first ".data ++
        ((Nat.repr k).data ++ " lines):".data)) ++
        '\n' :: joinNl (L.map String.data) := by
    rw [strData_append, strData_append, strData_append]
    have h1 : (" lines):\n" : String).data = " lines):".data ++ ['\n'] := rfl
    rw [h1, strData_mk]
    simp [List.append_assoc]
  rw [hd, splitNl_append_newline _ (header_noNl k)]
  rfl

/-- **C5.**  First-run behaviour: with no prior snapshot and new text of
more than `max_lines` lines, the summary contains exactly `max_lines`
`"+"`-marked lines, and relevance is true iff a keyword occurs in one of
exactly those first `max_lines` lines — keywords only in later lines do not
make it true. -/
theorem c5_first_run (new_text : String) (m : Nat)
    (h : m < (pySplit new_text).length) :
    ((pySplit (generate_diff "" new_text m).1).countP
        (fun l => startsWithChar l '+') = m) ∧
    ((generate_diff "" new_text m).2 = true ↔
      ∃ l ∈ (pySplit new_text).take m,
        contains_keywords l TICKET_KEYWORDS = true) := by
  have hfst : (generate_diff "" new_text m).1 =
      "📝 New content (first " ++
        Nat.repr ((pySplit new_text).take m).length ++ " lines):\n" ++
        pyJoin (((pySplit new_text).take m).map
          (fun line => "+ " ++ line)) := by
    simp [generate_diff]
  have hsnd : (generate_diff "" new_text m).2 =
      contains_keywords (pyJoin ((pySplit new_text).take m))
        TICKET_KEYWORDS := by
    simp [generate_diff]
  rcases Nat.eq_zero_or_pos m with hm | hm
  · subst hm
    constructor
    · rw [hfst]
      simp only [List.take_zero, List.map_nil]
      decide
    · rw [hsnd]
      simp only [List.take_zero]
      decide
  · have hLne : (pySplit new_text).take m ≠ [] := by
      intro hcon
      rcases List.take_eq_nil_iff.mp hcon with h' | h'
      · omega
      · exact splitNl_ne_nil new_text.data (List.map_eq_nil_iff.mp h')
    have hmapNoNl : ∀ p ∈ (((pySplit new_text).take m).map
        (fun line => "+ " ++ line)).map String.data, '\n' ∉ p := by
      intro p hp
      rcases List.mem_map.mp hp with ⟨s, hs, rfl⟩
      rcases List.mem_map.mp hs with ⟨l, hl, rfl⟩
      show '\n' ∉ ("+ " ++ l).data
      intro hmem
      rw [strData_append] at hmem
      rcases List.mem_append.mp hmem with h' | h'
      · exact absurd h' (by decide)
      · exact pySplit_noNl new_text l (List.mem_of_mem_take hl) h'
    constructor
    · rw [hfst, pySplit_header_join]
      have hhead : ¬(startsWithChar (String.mk
          ("📝 New content (first ".data ++
            ((Nat.repr ((pySplit new_text).take m).length).data ++
              " lines):".data))) '+' = true) := by
        rw [startsWithChar_mk_append _ _ _ (by decide)]
        decide
      rw [List.countP_cons_of_neg (fun l => startsWithChar l '+') _ hhead]
      rw [splitNl_joinNl (by simpa using hLne) hmapNoNl, map_mk_map_data]
      have hall : ∀ x ∈ ((pySplit new_text).take m).map
          (fun line => "+ " ++ line), startsWithChar x '+' = true := by
        intro x hx
        rcases List.mem_map.mp hx with ⟨l, _, rfl⟩
        rfl
      rw [List.countP_eq_length.mpr hall]
      simp only [List.length_map, List.length_take]
      omega
    · rw [hsnd]
      exact contains_keywords_pyJoin _

/-- **C5 (witness).**  The statement at a concrete three-line text truncated
to two lines, the first of which carries the keyword `"biglietti"`. -/
theorem c5_first_run_witness :
    ((pySplit (generate_diff "" "biglietti in vendita\nbb\ncc" 2).1).countP
        (fun l => startsWithChar l '+') = 2) ∧
    ((generate_diff "" "biglietti in vendita\nbb\ncc" 2).2 = true ↔
      ∃ l ∈ (pySplit "biglietti in vendita\nbb\ncc").take 2,
        contains_keywords l TICKET_KEYWORDS = true) :=
  c5_first_run "biglietti in vendita\nbb\ncc" 2 (by decide)

/-- **C6.**  Truncation bound: for every pair of texts and every
`max_lines`, the summary string returned by `generate_diff` contains at
most `max_lines` content lines (the lines after the headline; trailing
empty fragments are not lines). -/
theorem c6_truncation_bound (old_text new_text : String) (m : Nat) :
    (((pySplit (generate_diff old_text new_text m).1).drop 1).filter
      (fun l => decide (l ≠ ""))).length ≤ m := by
  by_cases hold : old_text = ""
  · subst hold
    have hfst : (generate_diff "" new_text m).1 =
        "📝 New content (first " ++
          Nat.repr ((pySplit new_text).take m).length ++ " lines):\n" ++
          pyJoin (((pySplit new_text).take m).map
            (fun line => "+ " ++ line)) := by
      simp [generate_diff]
    rcases Nat.eq_zero_or_pos m with hm | hm
    · subst hm
      rw [hfst]
      simp only [List.take_zero, List.map_nil]
      decide
    · have hLne : (pySplit new_text).take m ≠ [] := by
        intro hcon
        rcases List.take_eq_nil_iff.mp hcon with h' | h'
        · omega
        · exact splitNl_ne_nil new_text.data (List.map_eq_nil_iff.mp h')
      have hmapNoNl : ∀ p ∈ (((pySplit new_text).take m).map
          (fun line => "+ " ++ line)).map String.data, '\n' ∉ p := by
        intro p hp
        rcases List.mem_map.mp hp with ⟨s, hs, rfl⟩
        rcases List.mem_map.mp hs with ⟨l, hl, rfl⟩
        show '\n' ∉ ("+ " ++ l).data
        intro hmem
        rw [strData_append] at hmem
        rcases List.mem_append.mp hmem with h' | h'
        · exact absurd h' (by decide)
        · exact pySplit_noNl new_text l (List.mem_of_mem_take hl) h'
      rw [hfst, pySplit_header_join]
      simp only [List.drop_succ_cons, List.drop_zero]
      refine le_trans (List.length_filter_le _ _) ?_
      rw [List.length_map,
        splitNl_joinNl (by simpa using hLne) hmapNoNl]
      simp only [List.length_map, List.length_take]
      omega
  · by_cases hdiff : pyUnifiedDiff (pySplit old_text) (pySplit new_text) 2
      = []
    · have heq : generate_diff old_text new_text m =
          ("📝 Content changed but no clear diff available", false) := by
        simp [generate_diff, hold, hdiff]
      rw [heq]
      have h0 : (((pySplit (("📝 Content changed but no clear diff available",
          false) : String × Bool).1).drop 1).filter
            (fun l => decide (l ≠ ""))).length = 0 := by
        decide
      rw [h0]
      exact Nat.zero_le m
    · by_cases hret : additionsRetained old_text new_text m = []
      · have htake : (diffLoop ([], [])
            ((pyUnifiedDiff (pySplit old_text) (pySplit new_text) 2).drop
              3)).1.take m = [] := hret
        have heq : generate_diff old_text new_text m =
            ("📝 Content changed (no new information detected)", false) := by
          simp only [generate_diff, if_neg hold, if_neg hdiff, if_pos htake]
        rw [heq]
        have h0 : (((pySplit (("📝 Content changed (no new information detected)",
            false) : String × Bool).1).drop 1).filter
              (fun l => decide (l ≠ ""))).length = 0 := by
          decide
        rw [h0]
        exact Nat.zero_le m
      · rw [generate_diff_final old_text new_text m hold hret]
        have hpartsNoNl : ∀ p ∈ (additionsRetained old_text new_text m).map
            String.data, '\n' ∉ p := by
          intro p hp
          rcases List.mem_map.mp hp with ⟨s, hs, rfl⟩
          have hs' := List.mem_of_mem_take hs
          rcases diffLoop_fst_mem _ _ _ hs' with h' | h'
          · simp at h'
          · exact pyUnifiedDiff_noNl (pySplit_noNl old_text)
              (pySplit_noNl new_text) 2 s (List.mem_of_mem_drop h')
        have hdata : ("📝 New information:\n<code>" ++
              pyJoin (additionsRetained old_text new_text m) ++
              "</code>").data =
            "📝 New information:".data ++ '\n' ::
              ("<code>".data ++
                (joinNl ((additionsRetained old_text new_text m).map
                  String.data) ++ "</code>".data)) := by
          rw [strData_append, strData_append]
          have h1 : ("📝 New information:\n<code>" : String).data =
              "📝 New information:".data ++ '\n' :: "<code>".data := rfl
          rw [h1]
          have h2 : (pyJoin (additionsRetained old_text new_text m)).data =
              joinNl ((additionsRetained old_text new_text m).map
                String.data) := rfl
          rw [h2]
          simp [List.append_assoc]
        have hlen : (pySplit ("📝 New information:\n<code>" ++
              pyJoin (additionsRetained old_text new_text m) ++
              "</code>")).length =
            1 + (additionsRetained old_text new_text m).length := by
          unfold pySplit
          rw [hdata, splitNl_append_newline _ (by decide)]
          simp only [List.length_map, List.length_cons]
          rw [splitNl_length_append_left _ (by decide),
            splitNl_length_append_right _ (by decide),
            splitNl_joinNl (by simpa using hret) hpartsNoNl]
          simp only [List.length_map]
          omega
        refine le_trans (List.length_filter_le _ _) ?_
        rw [List.length_drop, hlen]
        have hle : (additionsRetained old_text new_text m).length ≤ m := by
          unfold additionsRetained
          exact List.length_take_le m _
        omega
